import Mathlib

/-!
Verification of the TPL adoption-metrics analysis engine.

The definitions below are a shallow embedding of the JavaScript source:
* `tpl-analyzer.js` (the `TPLAnalyzer` class: `detect`,
  `calculateViewportCoverage`, `getComponentSummary`, `analyzePage`,
  `formatPageSummary`, `formatDetailedResults`), and
* `scripts/collect-data-multiview.js` (`generateCrossViewportAnalysis`,
  `findViewportSpecificComponents`, `calculateResponsiveScore`,
  `calculateVariance`).

JavaScript numbers are modelled as exact rationals (`ℚ`).  A division whose
denominator is `0` yields a non-finite JavaScript number (`Infinity` or
`NaN`); such results are modelled by `Option ℚ`, with `none` standing for
any non-finite value (`jsDiv`).  `Math.round` is modelled by `round`
(round half toward positive infinity, which matches `Math.round` exactly
on finite inputs).  Strings are modelled as `List Char`;
`String.prototype.split(' ')` and the substring test `indexOf(n) > -1`
are modelled by `splitSpace` and `containsSub`.
-/

variable {α : Type*}

/-- `containsSub n h` models the JavaScript test `h.indexOf(n) > -1`
(also written `h.includes(n)` in the source): `n` occurs as a contiguous
substring of `h`. -/
def containsSub (n : List Char) : List Char → Bool
  | [] => n.isPrefixOf []
  | c :: t => n.isPrefixOf (c :: t) || containsSub n t

/-- `splitSpace cls` models `cls.split(' ')`: split at every single space
character, keeping empty chunks. -/
def splitSpace : List Char → List (List Char)
  | [] => [[]]
  | c :: t =>
    if c = ' ' then [] :: splitSpace t
    else
      match splitSpace t with
      | [] => [[c]]
      | h :: r => (c :: h) :: r

/-- Join chunks with single spaces; inverse of `splitSpace`, used only in
proofs. -/
def joinSp : List (List Char) → List Char
  | [] => []
  | [x] => x
  | x :: y :: r => x ++ ' ' :: joinSp (y :: r)

/-- First-occurrence-preserving deduplication with an accumulator of
already-seen keys; models both JavaScript `Set` insertion order and the
first-assignment key order of a plain object used as a dictionary. -/
def dedupGo [DecidableEq α] (seen : List α) : List α → List α
  | [] => []
  | a :: l => if a ∈ seen then dedupGo seen l else a :: dedupGo (a :: seen) l

def insOrderDedup [DecidableEq α] (l : List α) : List α := dedupGo [] l

/-- JavaScript division of finite numbers: a zero denominator produces a
non-finite number (`Infinity`, `-Infinity` or `NaN`), modelled as `none`. -/
def jsDiv (a b : ℚ) : Option ℚ := if b = 0 then none else some (a / b)

namespace TPL

/-- The geometry the page-rendering provider exposes to `detect`:
`window.innerWidth/innerHeight`, `window.scrollX/scrollY`, and the four
document scroll dimensions read at the top of `detect` and again in
`getComponentSummary`. -/
structure Env where
  innerWidth : ℚ
  innerHeight : ℚ
  scrollX : ℚ
  scrollY : ℚ
  bodyScrollWidth : ℚ
  bodyScrollHeight : ℚ
  docScrollWidth : ℚ
  docScrollHeight : ℚ
deriving DecidableEq

/-- `pageArea` as computed in `detect` (and recomputed verbatim in
`getComponentSummary`):
`max(body.scrollHeight, documentElement.scrollHeight) *
 max(body.scrollWidth, documentElement.scrollWidth)`. -/
def Env.pageArea (e : Env) : ℚ :=
  max e.bodyScrollHeight e.docScrollHeight * max e.bodyScrollWidth e.docScrollWidth

/-- One DOM element as seen by `document.querySelectorAll('*')`:
its `className` string and its `getBoundingClientRect()` geometry
(viewport-relative; `right = left + width`, `bottom = top + height`). -/
structure ElementDescriptor where
  id : List Char
  tagName : List Char
  className : List Char
  rectLeft : ℚ
  rectTop : ℚ
  rectWidth : ℚ
  rectHeight : ℚ
deriving DecidableEq

def ElementDescriptor.rectRight (el : ElementDescriptor) : ℚ := el.rectLeft + el.rectWidth

def ElementDescriptor.rectBottom (el : ElementDescriptor) : ℚ := el.rectTop + el.rectHeight

/-- The `position` record stored for each matched element (page-relative,
rounded with `Math.round`). -/
structure Position where
  x : ℤ
  y : ℤ
  width : ℤ
  height : ℤ
deriving DecidableEq

/-- One entry of `this.elements` as pushed by `detect`. -/
structure MatchedElement where
  id : List Char
  tagName : List Char
  classes : List (List Char)
  position : Position
  area : ℤ
  isVisible : Bool
  inViewport : Bool
deriving DecidableEq

/-- The design-system marker substring `'tpl'`. -/
def tplNeedle : List Char := "tpl".toList

/-- The four excluded UI-chrome substrings checked by `detect`. -/
def excludeNeedles : List (List Char) :=
  ["tpl-bottombar".toList, "tpl-coverage".toList, "tpl-btn".toList, "tpl-close".toList]

/-- The per-token filter applied to `cls.split(' ')`:
`c.indexOf('tpl') > -1 && !c.includes('tpl-bottombar') && ...`. -/
def tokenQualifies (c : List Char) : Bool :=
  containsSub tplNeedle c && !(excludeNeedles.any fun nd => containsSub nd c)

/-- The outer guard of `detect`, applied to the whole `className` string:
`cls.indexOf('tpl') > -1 && !cls.includes('tpl-bottombar') && ...`.
(The source also checks `typeof cls === 'string'`; the model always
supplies a string.) -/
def classGuard (cls : List Char) : Bool :=
  containsSub tplNeedle cls && !(excludeNeedles.any fun nd => containsSub nd cls)

/-- `const classes = cls.split(' ').filter(...)`. -/
def matchedTokens (cls : List Char) : List (List Char) :=
  (splitSpace cls).filter tokenQualifies

/-- An element is pushed onto `this.elements` iff the outer guard passes
and the filtered token list is non-empty (`classes.length > 0`). -/
def emitClass (cls : List Char) : Bool :=
  classGuard cls && !(matchedTokens cls).isEmpty

/-- The record pushed onto `this.elements` for the `n`-th emitted element
(`n = this.elements.length` at push time, used for the default id). -/
def mkMatched (env : Env) (n : ℕ) (el : ElementDescriptor) : MatchedElement :=
  { id := if el.id.isEmpty then "element-".toList ++ (toString n).toList else el.id
    tagName := el.tagName
    classes := matchedTokens el.className
    position :=
      { x := round (el.rectLeft + env.scrollX)
        y := round (el.rectTop + env.scrollY)
        width := round el.rectWidth
        height := round el.rectHeight }
    area := round (el.rectWidth * el.rectHeight)
    isVisible := decide (el.rectWidth > 0) && decide (el.rectHeight > 0)
    inViewport := decide (el.rectBottom > 0) && decide (el.rectTop < env.innerHeight) &&
      decide (el.rectRight > 0) && decide (el.rectLeft < env.innerWidth) }

/-- The `all.forEach` loop of `detect`, building `this.elements`;
`n` is the running `this.elements.length`. -/
def detectGo (env : Env) : List ElementDescriptor → ℕ → List MatchedElement
  | [], _ => []
  | el :: rest, n =>
    if emitClass el.className then mkMatched env n el :: detectGo env rest (n + 1)
    else detectGo env rest n

/-- `this.elements` after `detect` has run. -/
def detectElems (env : Env) (els : List ElementDescriptor) : List MatchedElement :=
  detectGo env els 0

/-- The `totalArea` accumulator of `detect`: the un-rounded bounding-box
area `rect.width * rect.height` of every emitted element. -/
def detectTotalArea : List ElementDescriptor → ℚ
  | [] => 0
  | el :: rest =>
    (if emitClass el.className then el.rectWidth * el.rectHeight else 0) + detectTotalArea rest

/-- `this.totalCoveragePercent = totalArea > 0 ? (totalArea / pageArea * 100) : 0`. -/
def totalCoveragePercent (env : Env) (els : List ElementDescriptor) : Option ℚ :=
  let totalArea := detectTotalArea els
  if totalArea > 0 then (jsDiv totalArea env.pageArea).map (· * 100) else some 0

/-- The `rect` object rebuilt by `calculateViewportCoverage` from a stored
item: `left = item.position.x - window.scrollX`, etc. -/
def itemLeft (env : Env) (item : MatchedElement) : ℚ := (item.position.x : ℚ) - env.scrollX

def itemTop (env : Env) (item : MatchedElement) : ℚ := (item.position.y : ℚ) - env.scrollY

def itemRight (env : Env) (item : MatchedElement) : ℚ :=
  (item.position.x : ℚ) - env.scrollX + (item.position.width : ℚ)

def itemBottom (env : Env) (item : MatchedElement) : ℚ :=
  (item.position.y : ℚ) - env.scrollY + (item.position.height : ℚ)

/-- The body of the `this.elements.forEach` loop of
`calculateViewportCoverage`: the clipped visible area this stored item
contributes to `visibleTPLArea` (0 when the intersection test fails or the
clipped width/height is not positive). -/
def viewportContribution (env : Env) (item : MatchedElement) : ℚ :=
  if itemBottom env item > 0 ∧ itemTop env item < env.innerHeight ∧
      itemRight env item > 0 ∧ itemLeft env item < env.innerWidth then
    if min (itemRight env item) env.innerWidth - max (itemLeft env item) 0 > 0 ∧
        min (itemBottom env item) env.innerHeight - max (itemTop env item) 0 > 0 then
      (min (itemRight env item) env.innerWidth - max (itemLeft env item) 0) *
        (min (itemBottom env item) env.innerHeight - max (itemTop env item) 0)
    else 0
  else 0

/-- The `visibleTPLArea` accumulator of `calculateViewportCoverage`. -/
def visibleTPLArea (env : Env) (items : List MatchedElement) : ℚ :=
  (items.map (viewportContribution env)).sum

/-- `calculateViewportCoverage`:
`visibleTPLArea > 0 ? (visibleTPLArea / viewportArea * 100) : 0` with
`viewportArea = window.innerWidth * window.innerHeight`. -/
def calculateViewportCoverage (env : Env) (items : List MatchedElement) : Option ℚ :=
  let viewportArea := env.innerWidth * env.innerHeight
  let visible := visibleTPLArea env items
  if visible > 0 then (jsDiv visible viewportArea).map (· * 100) else some 0

/-- One entry of the `components` array built by `getComponentSummary`. -/
structure ComponentStat where
  selector : List Char
  count : ℕ
  totalArea : ℚ
  averageArea : ℤ
  coveragePercent : Option ℚ
deriving DecidableEq

/-- The `(className, element.area)` pairs visited by the nested
`this.elements.forEach / element.classes.forEach` loops of
`getComponentSummary`, in visit order. -/
def occList (items : List MatchedElement) : List (List Char × ℤ) :=
  items.flatMap fun m => m.classes.map fun c => (c, m.area)

/-- The final value of `componentCounts[t]`: one increment per visit of
token `t`. -/
def tokenCount (items : List MatchedElement) (t : List Char) : ℕ :=
  ((occList items).filter fun p => p.1 = t).length

/-- The final value of `componentAreas[t]`: `element.area` added once per
visit of token `t`. -/
def tokenArea (items : List MatchedElement) (t : List Char) : ℚ :=
  (((occList items).filter fun p => p.1 = t).map fun p => (p.2 : ℚ)).sum

/-- `Object.keys(componentCounts)`: string keys of a plain object are
iterated in first-assignment order. -/
def tokenKeys (items : List MatchedElement) : List (List Char) :=
  insOrderDedup ((occList items).map Prod.fst)

/-- Stable insertion of a stat into a list sorted by descending
`totalArea`: a stat moves ahead of another only when its `totalArea` is
strictly larger, which reproduces the ECMAScript stable `sort` with
comparator `(a, b) => b.totalArea - a.totalArea`. -/
def insertDesc (s : ComponentStat) : List ComponentStat → List ComponentStat
  | [] => [s]
  | x :: t => if s.totalArea ≥ x.totalArea then s :: x :: t else x :: insertDesc s t

/-- `components.sort((a, b) => b.totalArea - a.totalArea)`: the (unique)
stable descending sort by `totalArea`, realised by insertion sort. -/
def sortDesc : List ComponentStat → List ComponentStat
  | [] => []
  | x :: t => insertDesc x (sortDesc t)

/-- The `ComponentStat` built for one key `t` by the
`Object.keys(componentCounts).map(...)` callback of `getComponentSummary`:
`selector` is `'.' + t`, `averageArea` is `Math.round(totalArea / count)`,
and `coveragePercent` divides by the recomputed `pageArea` with no guard. -/
def componentStatFor (env : Env) (items : List MatchedElement) (t : List Char) : ComponentStat :=
  { selector := '.' :: t
    count := tokenCount items t
    totalArea := tokenArea items t
    averageArea := round (tokenArea items t / (tokenCount items t : ℚ))
    coveragePercent := (jsDiv (tokenArea items t) env.pageArea).map (· * 100) }

/-- `getComponentSummary`: one `ComponentStat` per distinct token, in key
order, then sorted by descending `totalArea`. -/
def getComponentSummary (env : Env) (items : List MatchedElement) : List ComponentStat :=
  sortDesc ((tokenKeys items).map (componentStatFor env items))

/-- `Math.round(value * 10) / 10`: rounding to one decimal place. -/
def roundTo1 (v : ℚ) : ℚ := (round (v * 10) : ℚ) / 10

/-- `comp.selector.replace('.', '')`: `String.prototype.replace` with a
string pattern removes only the first occurrence. -/
def stripFirstDot : List Char → List Char
  | [] => []
  | c :: t => if c = '.' then t else c :: stripFirstDot t

/-- The object returned by `analyzePage` (the value of `page.evaluate`). -/
structure AnalysisResults where
  elementCount : ℕ
  totalCoveragePercent : Option ℚ
  viewportCoveragePercent : Option ℚ
  topComponents : List (List Char)
  components : List ComponentStat
  elements : List MatchedElement
deriving DecidableEq

/-- `analyzePage`: run `detect`, `calculateViewportCoverage` and
`getComponentSummary`, take the top 3 selectors stripped of their leading
dot, and round the two page-level percentages to one decimal place. -/
def analyzePage (env : Env) (els : List ElementDescriptor) : AnalysisResults :=
  let elements := detectElems env els
  let components := getComponentSummary env elements
  { elementCount := elements.length
    totalCoveragePercent := (totalCoveragePercent env els).map roundTo1
    viewportCoveragePercent := (calculateViewportCoverage env elements).map roundTo1
    topComponents := (components.take 3).map fun comp => stripFirstDot comp.selector
    components := components
    elements := elements }

/-- The page-configuration fields read by the formatters (`pageConfig.type`
and `pageConfig.section`; the source field `section` is spelled
`sectionName` because `section` is a Lean keyword). -/
structure PageConfig where
  type : String
  sectionName : String
deriving DecidableEq

/-- The compact summary shape produced by `formatPageSummary`. -/
structure PageSummary where
  url : String
  pageType : String
  sectionName : String
  tplCoverage : Option ℚ
  elementCount : ℕ
  topComponents : List (List Char)
deriving DecidableEq

/-- The nested `_detailed` object of `formatDetailedResults`. -/
structure DetailedInner where
  elementCount : ℕ
  totalCoveragePercent : Option ℚ
  viewportCoveragePercent : Option ℚ
  topComponents : List (List Char)
  components : List ComponentStat
  elements : List MatchedElement
deriving DecidableEq

/-- The detailed shape produced by `formatDetailedResults`. -/
structure DetailedResults where
  url : String
  pageType : String
  sectionName : String
  tplCoverage : Option ℚ
  elementCount : ℕ
  topComponents : List (List Char)
  detailed : DetailedInner
deriving DecidableEq

def formatPageSummary (url : String) (pageConfig : PageConfig)
    (analysisResults : AnalysisResults) : PageSummary :=
  { url := url
    pageType := pageConfig.type
    sectionName := pageConfig.sectionName
    tplCoverage := analysisResults.totalCoveragePercent
    elementCount := analysisResults.elementCount
    topComponents := analysisResults.topComponents }

def formatDetailedResults (url : String) (pageConfig : PageConfig)
    (analysisResults : AnalysisResults) : DetailedResults :=
  { url := url
    pageType := pageConfig.type
    sectionName := pageConfig.sectionName
    tplCoverage := analysisResults.totalCoveragePercent
    elementCount := analysisResults.elementCount
    topComponents := analysisResults.topComponents
    detailed :=
      { elementCount := analysisResults.elementCount
        totalCoveragePercent := analysisResults.totalCoveragePercent
        viewportCoveragePercent := analysisResults.viewportCoveragePercent
        topComponents := analysisResults.topComponents
        components := analysisResults.components
        elements := analysisResults.elements } }

/-- Projection of a detailed record onto the summary field set. -/
def DetailedResults.toSummary (d : DetailedResults) : PageSummary :=
  { url := d.url
    pageType := d.pageType
    sectionName := d.sectionName
    tplCoverage := d.tplCoverage
    elementCount := d.elementCount
    topComponents := d.topComponents }

/-- Reconstruction of the full `analyzePage` output from a detailed
record (used to state that no information is lost). -/
def DetailedResults.recoverAnalysis (d : DetailedResults) : AnalysisResults :=
  { elementCount := d.detailed.elementCount
    totalCoveragePercent := d.detailed.totalCoveragePercent
    viewportCoveragePercent := d.detailed.viewportCoveragePercent
    topComponents := d.detailed.topComponents
    components := d.detailed.components
    elements := d.detailed.elements }

end TPL

namespace MV

/-- The fields of one viewport's `analysis` object that
`generateCrossViewportAnalysis`, `calculateResponsiveScore` and
`calculateVariance` read (`collect-data-multiview.js`). -/
structure MVAnalysis where
  totalCoveragePercent : ℚ
  elementCount : ℚ
  topComponents : List String
deriving DecidableEq

/-- One value of the `viewportResults` object: a viewport name together
with its analysis, which is `null` (`none`) when capture failed. -/
structure MVResult where
  name : String
  analysis : Option MVAnalysis
deriving DecidableEq

/-- `calculateVariance`: mean of squared deviations from the mean
(population variance). -/
def calculateVariance (numbers : List ℚ) : ℚ :=
  let mean := numbers.sum / (numbers.length : ℚ)
  let squaredDiffs := numbers.map fun num => (num - mean) ^ 2
  squaredDiffs.sum / (numbers.length : ℚ)

/-- `calculateResponsiveScore`: `0` when fewer than 2 viewports have a
non-null analysis, otherwise `Math.max(0, 1 - variance / 100)` over the
successful viewports' `totalCoveragePercent` values. -/
def calculateResponsiveScore (viewportResults : List MVResult) : ℚ :=
  let successfulResults := viewportResults.filterMap (·.analysis)
  if successfulResults.length < 2 then 0
  else
    let coverages := successfulResults.map (·.totalCoveragePercent)
    max 0 (1 - calculateVariance coverages / 100)

/-- `successfulResults` in `generateCrossViewportAnalysis`: the viewports
whose `analysis` is not `null`, keeping their names. -/
def successfulResults (viewportResults : List MVResult) : List (String × MVAnalysis) :=
  viewportResults.filterMap fun r => r.analysis.map fun a => (r.name, a)

/-- `Math.min(...xs)` over a non-empty list (the empty case is unreachable
in the guarded branch; `Math.min()` would be `Infinity`). -/
def listMin : List ℚ → ℚ
  | [] => 0
  | x :: t => t.foldl min x

def listMax : List ℚ → ℚ
  | [] => 0
  | x :: t => t.foldl max x

/-- The `{min, max, average, range}` record computed for coverages and
element counts. -/
structure Stats4 where
  min : ℚ
  max : ℚ
  average : ℚ
  range : ℚ
deriving DecidableEq

def statsOf (xs : List ℚ) : Stats4 :=
  { min := listMin xs
    max := listMax xs
    average := xs.sum / (xs.length : ℚ)
    range := listMax xs - listMin xs }

/-- `findViewportSpecificComponents`: per viewport, the components of its
`topComponents` appearing in no other viewport's `topComponents`; a
viewport is a key of the result only when that list is non-empty. -/
def findViewportSpecificComponents (componentsByViewport : List (String × List String)) :
    List (String × List String) :=
  componentsByViewport.filterMap fun p =>
    let unique := p.2.filter fun comp =>
      !((componentsByViewport.filter fun q => q.1 ≠ p.1).any fun q => q.2.contains comp)
    if unique.isEmpty then none else some (p.1, unique)

/-- A successfully populated `CrossViewportAnalysis`. -/
structure CrossViewportAnalysis where
  coverageVariance : Stats4
  elementCountVariance : Stats4
  componentConsistency : List (String × ℚ)
  viewportSpecificComponents : List (String × List String)
  responsiveAdoptionScore : ℚ
deriving DecidableEq

/-- The two shapes `generateCrossViewportAnalysis` can return: the explicit
failure object `{ error: ... }` or a populated analysis. -/
inductive CrossRes where
  | failure (msg : String)
  | ok (a : CrossViewportAnalysis)
deriving DecidableEq

/-- `generateCrossViewportAnalysis`. -/
def generateCrossViewportAnalysis (viewportResults : List MVResult) : CrossRes :=
  let succ := successfulResults viewportResults
  if succ.isEmpty then .failure "No successful viewport analyses"
  else
    let coverages := succ.map fun p => p.2.totalCoveragePercent
    let elementCounts := succ.map fun p => p.2.elementCount
    let componentsByViewport := succ.map fun p => (p.1, p.2.topComponents)
    let allComponents := insOrderDedup (succ.flatMap fun p => p.2.topComponents)
    .ok
      { coverageVariance := statsOf coverages
        elementCountVariance := statsOf elementCounts
        componentConsistency := allComponents.map fun component =>
          (component,
            (((componentsByViewport.map Prod.snd).filter
              fun components => components.contains component).length : ℚ) /
              (succ.length : ℚ))
        viewportSpecificComponents := findViewportSpecificComponents componentsByViewport
        responsiveAdoptionScore := calculateResponsiveScore viewportResults }

/-- Population variance, written as the spec words it: the mean of the
squared deviations from the mean.  Stated separately from
`calculateVariance` to compare code against spec. -/
def specPopulationVariance (xs : List ℚ) : ℚ :=
  (xs.map fun x => (x - xs.sum / (xs.length : ℚ)) ^ 2).sum / (xs.length : ℚ)

end MV

/-! ### Lemmas about the string model -/

lemma within_of_pre {n x : List Char} (h : n <+: x) : n <:+: x := by
  obtain ⟨t, ht⟩ := h
  exact ⟨[], t, by simpa using ht⟩

lemma within_of_suf {n x : List Char} (h : n <:+ x) : n <:+: x := by
  obtain ⟨s, hs⟩ := h
  exact ⟨s, [], by simpa using hs⟩

lemma containsSub_iff_within (n : List Char) : ∀ h : List Char, containsSub n h = true ↔ n <:+: h := by
  intro h
  induction h with
  | nil => simp [containsSub, List.isPrefixOf_iff_prefix]
  | cons c t ih =>
    rw [containsSub]
    simp only [Bool.or_eq_true, List.isPrefixOf_iff_prefix, ih]
    exact Iff.symm List.infix_cons_iff

lemma splitSpace_ne_nil (l : List Char) : splitSpace l ≠ [] := by
  cases l with
  | nil => simp [splitSpace]
  | cons c t =>
    rw [splitSpace]
    split
    · simp
    · split <;> simp

lemma joinSp_splitSpace : ∀ l : List Char, joinSp (splitSpace l) = l := by
  intro l
  induction l with
  | nil => simp [splitSpace, joinSp]
  | cons c t ih =>
    rw [splitSpace]
    by_cases hc : c = ' '
    · rw [if_pos hc]
      cases hsp : splitSpace t with
      | nil => exact absurd hsp (splitSpace_ne_nil t)
      | cons h r =>
        rw [hsp] at ih
        rw [joinSp, hc]
        simpa using ih
    · rw [if_neg hc]
      cases hsp : splitSpace t with
      | nil => exact absurd hsp (splitSpace_ne_nil t)
      | cons h r =>
        rw [hsp] at ih
        show joinSp ((c :: h) :: r) = c :: t
        cases r with
        | nil => simpa [joinSp] using ih
        | cons y r' =>
          rw [joinSp] at ih ⊢
          simp only [List.cons_append]
          rw [ih]

lemma within_trans {a b c : List Char} (h1 : a <:+: b) (h2 : b <:+: c) : a <:+: c := by
  obtain ⟨s1, t1, rfl⟩ := h1
  obtain ⟨s2, t2, rfl⟩ := h2
  exact ⟨s2 ++ s1, t1 ++ t2, by simp [List.append_assoc]⟩

lemma pre_of_pre_append_sep {n : List Char} (hn : ' ' ∉ n) :
    ∀ x z : List Char, n <+: x ++ ' ' :: z → n <+: x := by
  intro x
  induction x generalizing n with
  | nil =>
    intro z h
    cases n with
    | nil => exact List.nil_prefix
    | cons a n' =>
      simp only [List.nil_append, List.cons_prefix_cons] at h
      exact absurd (h.1 ▸ List.mem_cons_self a n') hn
  | cons b x' ih =>
    intro z h
    cases n with
    | nil => exact List.nil_prefix
    | cons a n' =>
      simp only [List.cons_append, List.cons_prefix_cons] at h
      have hn' : ' ' ∉ n' := fun hm => hn (List.mem_cons_of_mem a hm)
      exact List.cons_prefix_cons.mpr ⟨h.1, ih hn' z h.2⟩

lemma within_append_sep {n : List Char} (hn : ' ' ∉ n) (hne : n ≠ []) :
    ∀ x z : List Char, n <:+: x ++ ' ' :: z → n <:+: x ∨ n <:+: z := by
  intro x
  induction x with
  | nil =>
    intro z h
    simp only [List.nil_append] at h
    rcases List.infix_cons_iff.mp h with hp | hi
    · cases n with
      | nil => exact absurd rfl hne
      | cons a n' =>
        have := (List.cons_prefix_cons.mp hp).1
        exact absurd (this ▸ List.mem_cons_self a n') hn
    · exact Or.inr hi
  | cons b x' ih =>
    intro z h
    rw [List.cons_append] at h
    rcases List.infix_cons_iff.mp h with hp | hi
    · cases n with
      | nil => exact absurd rfl hne
      | cons a n' =>
        obtain ⟨hab, hp'⟩ := List.cons_prefix_cons.mp hp
        have hn' : ' ' ∉ n' := fun hm => hn (List.mem_cons_of_mem a hm)
        exact Or.inl (within_of_pre (List.cons_prefix_cons.mpr ⟨hab, pre_of_pre_append_sep hn' x' z hp'⟩))
    · rcases ih z hi with h1 | h2
      · exact Or.inl (within_trans h1 (within_of_suf ⟨[b], rfl⟩))
      · exact Or.inr h2

lemma within_joinSp {n : List Char} (hn : ' ' ∉ n) (hne : n ≠ []) :
    ∀ chunks : List (List Char), chunks ≠ [] →
      (n <:+: joinSp chunks ↔ ∃ tok ∈ chunks, n <:+: tok) := by
  intro chunks
  induction chunks with
  | nil => intro h; exact absurd rfl h
  | cons x r ih =>
    intro _
    cases r with
    | nil => simp [joinSp]
    | cons y r' =>
      rw [joinSp]
      constructor
      · intro h
        rcases within_append_sep hn hne x _ h with h1 | h2
        · exact ⟨x, by simp, h1⟩
        · obtain ⟨tok, htok, hin⟩ := (ih (by simp)).mp h2
          exact ⟨tok, List.mem_cons_of_mem x htok, hin⟩
      · rintro ⟨tok, htok, hin⟩
        rcases List.mem_cons.mp htok with rfl | hmem
        · exact within_trans hin (within_of_pre ⟨_, rfl⟩)
        · have hj : n <:+: joinSp (y :: r') := (ih (by simp)).mpr ⟨tok, hmem, hin⟩
          exact within_trans hj (within_of_suf ⟨x ++ [' '], by simp⟩)

lemma containsSub_splitSpace {n : List Char} (hn : ' ' ∉ n) (hne : n ≠ []) (cls : List Char) :
    containsSub n cls = true ↔ ∃ tok ∈ splitSpace cls, containsSub n tok = true := by
  rw [containsSub_iff_within]
  conv_lhs => rw [← joinSp_splitSpace cls]
  rw [within_joinSp hn hne _ (splitSpace_ne_nil cls)]
  exact exists_congr fun tok => and_congr_right fun _ => (containsSub_iff_within n tok).symm

/-! ### Lemmas about the element matcher -/

namespace TPL

lemma tplNeedle_ok : ' ' ∉ tplNeedle ∧ tplNeedle ≠ [] := by decide

lemma excludeNeedles_ok : ∀ nd ∈ excludeNeedles, ' ' ∉ nd ∧ nd ≠ [] := by decide

/-- The whole-class-string guard of `detect`, re-expressed at the level of
the split tokens. -/
lemma classGuard_iff (cls : List Char) :
    classGuard cls = true ↔
      (∃ tok ∈ splitSpace cls, containsSub tplNeedle tok = true) ∧
        ∀ tok ∈ splitSpace cls, ∀ nd ∈ excludeNeedles, containsSub nd tok = false := by
  unfold classGuard
  rw [Bool.and_eq_true, Bool.not_eq_true', List.any_eq_false]
  rw [containsSub_splitSpace tplNeedle_ok.1 tplNeedle_ok.2]
  constructor
  · rintro ⟨h1, h2⟩
    refine ⟨h1, fun tok htok nd hnd => ?_⟩
    by_contra hcon
    rw [Bool.not_eq_false] at hcon
    have hcls : containsSub nd cls = true :=
      (containsSub_splitSpace (excludeNeedles_ok nd hnd).1 (excludeNeedles_ok nd hnd).2 cls).mpr
        ⟨tok, htok, hcon⟩
    exact absurd hcls (by simpa using h2 nd hnd)
  · rintro ⟨h1, h2⟩
    refine ⟨h1, fun nd hnd => ?_⟩
    rw [containsSub_splitSpace (excludeNeedles_ok nd hnd).1 (excludeNeedles_ok nd hnd).2 cls]
    push_neg
    intro tok htok
    simp [h2 tok htok nd hnd]

lemma tokenQualifies_of_exclFree {cls : List Char}
    (h : ∀ tok ∈ splitSpace cls, ∀ nd ∈ excludeNeedles, containsSub nd tok = false)
    {tok : List Char} (htok : tok ∈ splitSpace cls) :
    tokenQualifies tok = containsSub tplNeedle tok := by
  unfold tokenQualifies
  have hany : (excludeNeedles.any fun nd => containsSub nd tok) = false := by
    rw [List.any_eq_false]
    intro nd hnd
    simp [h tok htok nd hnd]
  rw [hany]
  simp

/-- When the class string is free of excluded substrings, the matched
tokens are exactly the split tokens containing the marker. -/
lemma matchedTokens_of_exclFree {cls : List Char}
    (h : ∀ tok ∈ splitSpace cls, ∀ nd ∈ excludeNeedles, containsSub nd tok = false) :
    matchedTokens cls = (splitSpace cls).filter fun tok => containsSub tplNeedle tok := by
  unfold matchedTokens
  exact List.filter_congr fun tok htok => tokenQualifies_of_exclFree h htok

/-- The emission decision of `detect`, re-expressed purely at the level of
the split tokens. -/
lemma emitClass_iff (cls : List Char) :
    emitClass cls = true ↔
      (∃ tok ∈ splitSpace cls, containsSub tplNeedle tok = true) ∧
        ∀ tok ∈ splitSpace cls, ∀ nd ∈ excludeNeedles, containsSub nd tok = false := by
  unfold emitClass
  rw [Bool.and_eq_true, Bool.not_eq_true', classGuard_iff]
  constructor
  · rintro ⟨h, _⟩
    exact h
  · rintro ⟨h1, h2⟩
    refine ⟨⟨h1, h2⟩, ?_⟩
    obtain ⟨tok, htok, htpl⟩ := h1
    have hq : tokenQualifies tok = true := by
      rw [tokenQualifies_of_exclFree h2 htok]
      exact htpl
    rw [List.isEmpty_eq_false]
    have hmem : tok ∈ matchedTokens cls := by
      unfold matchedTokens
      exact List.mem_filter.mpr ⟨htok, hq⟩
    intro hnil
    rw [hnil] at hmem
    exact absurd hmem (List.not_mem_nil tok)

/-- Every matched token passes the per-token filter and comes from the
split of the class string. -/
lemma matchedTokens_spec (cls : List Char) {t : List Char} (ht : t ∈ matchedTokens cls) :
    t ∈ splitSpace cls ∧ tokenQualifies t = true := by
  unfold matchedTokens at ht
  exact ⟨(List.mem_filter.mp ht).1, (List.mem_filter.mp ht).2⟩

/-- `this.elements` when every listed element is emitted, with the running
index threaded through. -/
def mkAllFrom (env : Env) : ℕ → List ElementDescriptor → List MatchedElement
  | _, [] => []
  | n, el :: rest => mkMatched env n el :: mkAllFrom env (n + 1) rest

lemma detectGo_eq (env : Env) :
    ∀ (els : List ElementDescriptor) (n : ℕ),
      detectGo env els n = mkAllFrom env n (els.filter fun el => emitClass el.className) := by
  intro els
  induction els with
  | nil => intro n; rfl
  | cons el rest ih =>
    intro n
    by_cases h : emitClass el.className
    · have hf : (el :: rest).filter (fun el => emitClass el.className) =
          el :: rest.filter (fun el => emitClass el.className) := by
        simp [List.filter_cons, h]
      rw [detectGo, if_pos h, hf, mkAllFrom, ih]
    · have hf : (el :: rest).filter (fun el => emitClass el.className) =
          rest.filter (fun el => emitClass el.className) := by
        simp [List.filter_cons, h]
      rw [detectGo, if_neg h, hf, ih]

lemma mem_mkAllFrom {env : Env} {m : MatchedElement} :
    ∀ {n : ℕ} {l : List ElementDescriptor},
      m ∈ mkAllFrom env n l → ∃ el ∈ l, ∃ k, m = mkMatched env k el := by
  intro n l
  induction l generalizing n with
  | nil => intro h; simp [mkAllFrom] at h
  | cons el rest ih =>
    intro h
    rw [mkAllFrom] at h
    rcases List.mem_cons.mp h with rfl | h'
    · exact ⟨el, List.mem_cons_self el rest, n, rfl⟩
    · obtain ⟨el', hel', k, hk⟩ := ih h'
      exact ⟨el', List.mem_cons_of_mem el hel', k, hk⟩

lemma mkAllFrom_mem {env : Env} {el : ElementDescriptor} :
    ∀ {l : List ElementDescriptor}, el ∈ l → ∀ n : ℕ,
      ∃ k, mkMatched env k el ∈ mkAllFrom env n l := by
  intro l
  induction l with
  | nil => intro h; simp at h
  | cons el' rest ih =>
    intro h n
    rcases List.mem_cons.mp h with rfl | h'
    · exact ⟨n, by rw [mkAllFrom]; exact List.mem_cons_self _ _⟩
    · obtain ⟨k, hk⟩ := ih h' (n + 1)
      exact ⟨k, by rw [mkAllFrom]; exact List.mem_cons_of_mem _ hk⟩

lemma length_mkAllFrom (env : Env) :
    ∀ (n : ℕ) (l : List ElementDescriptor), (mkAllFrom env n l).length = l.length := by
  intro n l
  induction l generalizing n with
  | nil => rfl
  | cons el rest ih => rw [mkAllFrom]; simp [ih]

lemma map_classes_mkAllFrom (env : Env) :
    ∀ (n : ℕ) (l : List ElementDescriptor),
      (mkAllFrom env n l).map (·.classes) = l.map fun el => matchedTokens el.className := by
  intro n l
  induction l generalizing n with
  | nil => rfl
  | cons el rest ih => rw [mkAllFrom]; simp [mkMatched, ih]

end TPL

/-! ### Lemmas about deduplication, sorting and the component aggregator -/

lemma mem_dedupGo [DecidableEq α] (a : α) :
    ∀ (l seen : List α), a ∈ dedupGo seen l ↔ a ∈ l ∧ a ∉ seen := by
  intro l
  induction l with
  | nil => intro seen; simp [dedupGo]
  | cons b l' ih =>
    intro seen
    by_cases hb : b ∈ seen
    · rw [dedupGo, if_pos hb, ih]
      by_cases hab : a = b
      · subst hab
        simp [hb]
      · simp [hab]
    · rw [dedupGo, if_neg hb, List.mem_cons, ih]
      by_cases hab : a = b
      · subst hab
        simp [hb]
      · simp [hab]

lemma mem_insOrderDedup [DecidableEq α] (a : α) (l : List α) :
    a ∈ insOrderDedup l ↔ a ∈ l := by
  rw [insOrderDedup, mem_dedupGo]
  simp

namespace TPL

lemma mem_insertDesc (s x : ComponentStat) :
    ∀ l : List ComponentStat, (x ∈ insertDesc s l ↔ x = s ∨ x ∈ l) := by
  intro l
  induction l with
  | nil => simp [insertDesc]
  | cons y t ih =>
    rw [insertDesc]
    split
    · simp [List.mem_cons]
    · simp only [List.mem_cons, ih]
      tauto

lemma mem_sortDesc (x : ComponentStat) :
    ∀ l : List ComponentStat, (x ∈ sortDesc l ↔ x ∈ l) := by
  intro l
  induction l with
  | nil => simp [sortDesc]
  | cons y t ih =>
    rw [sortDesc, mem_insertDesc]
    simp [ih]

lemma mem_getComponentSummary {env : Env} {items : List MatchedElement} {s : ComponentStat} :
    s ∈ getComponentSummary env items ↔
      ∃ t, (∃ m ∈ items, t ∈ m.classes) ∧ s = componentStatFor env items t := by
  rw [getComponentSummary, mem_sortDesc, List.mem_map]
  constructor
  · rintro ⟨t, ht, rfl⟩
    rw [tokenKeys, mem_insOrderDedup] at ht
    simp only [List.mem_map] at ht
    obtain ⟨⟨c, ar⟩, hocc, rfl⟩ := ht
    simp only [occList, List.mem_flatMap, List.mem_map] at hocc
    obtain ⟨m, hm, c', hc', heq⟩ := hocc
    refine ⟨c, ⟨m, hm, ?_⟩, rfl⟩
    obtain ⟨h1, _⟩ := Prod.mk.injEq .. ▸ heq
    exact h1 ▸ hc'
  · rintro ⟨t, ⟨m, hm, hc⟩, rfl⟩
    refine ⟨t, ?_, rfl⟩
    rw [tokenKeys, mem_insOrderDedup]
    simp only [List.mem_map]
    refine ⟨(t, m.area), ?_, rfl⟩
    simp only [occList, List.mem_flatMap, List.mem_map]
    exact ⟨m, hm, t, hc, rfl⟩

/-- Under per-element token `Nodup`, the occurrence pairs of one element
filtered to one token form either a singleton or nothing. -/
lemma filter_pairs_nodup {cs : List (List Char)} (h : cs.Nodup) (t : List Char) (a : ℤ) :
    ((cs.map fun c => (c, a)).filter fun p => p.1 = t) =
      if t ∈ cs then [(t, a)] else [] := by
  induction cs with
  | nil => simp
  | cons c cs' ih =>
    obtain ⟨hc, hnd⟩ := List.nodup_cons.mp h
    by_cases hct : c = t
    · subst hct
      rw [List.map_cons, List.filter_cons, if_pos (by simp)]
      rw [ih hnd, if_neg hc, if_pos (List.mem_cons_self c cs')]
    · rw [List.map_cons, List.filter_cons, if_neg (by simp [hct]), ih hnd]
      by_cases hmem : t ∈ cs'
      · rw [if_pos hmem, if_pos (List.mem_cons_of_mem c hmem)]
      · rw [if_neg hmem, if_neg ?_]
        intro hcon
        rcases List.mem_cons.mp hcon with rfl | h'
        · exact hct rfl
        · exact hmem h'

lemma occList_cons (m : MatchedElement) (rest : List MatchedElement) :
    occList (m :: rest) = (m.classes.map fun c => (c, m.area)) ++ occList rest := by
  simp [occList]

/-- `componentCounts[t]` counts the elements carrying `t` once each, when
no element lists the same token twice. -/
lemma tokenCount_eq {items : List MatchedElement} (h : ∀ m ∈ items, m.classes.Nodup)
    (t : List Char) :
    tokenCount items t = (items.filter fun m => t ∈ m.classes).length := by
  induction items with
  | nil => rfl
  | cons m rest ih =>
    have hm := h m (List.mem_cons_self m rest)
    have hrest : ∀ m' ∈ rest, m'.classes.Nodup := fun m' hm' => h m' (List.mem_cons_of_mem m hm')
    rw [tokenCount, occList_cons, List.filter_append, List.length_append]
    rw [filter_pairs_nodup hm t m.area]
    rw [show ((occList rest).filter fun p => p.1 = t).length = tokenCount rest t from rfl, ih hrest]
    rw [List.filter_cons]
    by_cases hmem : t ∈ m.classes
    · rw [if_pos hmem, if_pos (by simp [hmem])]
      simp [Nat.add_comm]
    · rw [if_neg hmem, if_neg (by simp [hmem])]
      simp

/-- `componentAreas[t]` adds each carrying element's full stored area once,
when no element lists the same token twice. -/
lemma tokenArea_eq {items : List MatchedElement} (h : ∀ m ∈ items, m.classes.Nodup)
    (t : List Char) :
    tokenArea items t = ((items.filter fun m => t ∈ m.classes).map fun m => (m.area : ℚ)).sum := by
  induction items with
  | nil => rfl
  | cons m rest ih =>
    have hm := h m (List.mem_cons_self m rest)
    have hrest : ∀ m' ∈ rest, m'.classes.Nodup := fun m' hm' => h m' (List.mem_cons_of_mem m hm')
    rw [tokenArea, occList_cons, List.filter_append, List.map_append, List.sum_append]
    rw [filter_pairs_nodup hm t m.area]
    rw [show (((occList rest).filter fun p => p.1 = t).map fun p => (p.2 : ℚ)).sum
        = tokenArea rest t from rfl, ih hrest]
    rw [List.filter_cons]
    by_cases hmem : t ∈ m.classes
    · rw [if_pos hmem, if_pos (by simp [hmem])]
      simp [add_comm]
    · rw [if_neg hmem, if_neg (by simp [hmem])]
      simp

end TPL

/-! ### Lemmas about the viewport coverage calculator -/

namespace TPL

lemma viewportContribution_eq_zero {env : Env} (h : env.innerWidth * env.innerHeight ≤ 0)
    (item : MatchedElement) : viewportContribution env item = 0 := by
  rw [viewportContribution]
  split
  · split
    · rename_i hvis
      exfalso
      obtain ⟨hw, hh⟩ := hvis
      have hW : 0 < env.innerWidth := by
        have h1 : (0 : ℚ) ≤ max (itemLeft env item) 0 := le_max_right _ _
        have h2 : 0 < min (itemRight env item) env.innerWidth := by linarith
        exact lt_of_lt_of_le h2 (min_le_right _ _)
      have hH : 0 < env.innerHeight := by
        have h1 : (0 : ℚ) ≤ max (itemTop env item) 0 := le_max_right _ _
        have h2 : 0 < min (itemBottom env item) env.innerHeight := by linarith
        exact lt_of_lt_of_le h2 (min_le_right _ _)
      exact absurd (mul_pos hW hH) (not_lt.mpr h)
    · rfl
  · rfl

lemma visibleTPLArea_eq_zero {env : Env} (h : env.innerWidth * env.innerHeight ≤ 0)
    (items : List MatchedElement) : visibleTPLArea env items = 0 := by
  rw [visibleTPLArea]
  apply List.sum_eq_zero
  intro x hx
  obtain ⟨item, _, rfl⟩ := List.mem_map.mp hx
  exact viewportContribution_eq_zero h item

end TPL

/-! ### Claims -/

/-- C9: Formatting a `(url, pageConfig, PageAnalysis)` triple into the
detailed shape and projecting back onto the summary field set
`{url, pageType, section, tplCoverage, elementCount, topComponents}`
reproduces exactly the summary produced directly from the same triple, and
the full `analyzePage` output is recoverable from the detailed record's
`_detailed` object (detailed = summary plus extras, no information lost). -/
theorem claim_C9 (url : String) (pageConfig : TPL.PageConfig)
    (analysisResults : TPL.AnalysisResults) :
    (TPL.formatDetailedResults url pageConfig analysisResults).toSummary =
        TPL.formatPageSummary url pageConfig analysisResults ∧
      (TPL.formatDetailedResults url pageConfig analysisResults).recoverAnalysis =
        analysisResults :=
  ⟨rfl, rfl⟩

/-- C1 (counterexample): the claim "if pageArea <= 0 the Coverage
Calculator returns totalCoveragePercent = 0 ... no division by zero (or
non-finite result) ever occurs" is false: for a page whose scroll
dimensions are all zero (`pageArea = 0`) containing one matched `tpl-card`
element of positive bounding-box area, the code reaches
`totalArea / pageArea` with a zero denominator and the result is
non-finite, not `0`. -/
theorem claim_C1_counterexample :
    (⟨0, 0, 0, 0, 0, 0, 0, 0⟩ : TPL.Env).pageArea ≤ 0 ∧
      TPL.totalCoveragePercent ⟨0, 0, 0, 0, 0, 0, 0, 0⟩
        [⟨[], [], "tpl-card".toList, 0, 0, 10, 10⟩] = none := by
  constructor
  · norm_num [TPL.Env.pageArea]
  · have hg : TPL.emitClass "tpl-card".toList = true := by decide
    simp only [TPL.totalCoveragePercent, TPL.detectTotalArea, hg, if_true]
    norm_num [jsDiv, TPL.Env.pageArea]

/-- C1 (amended): the zero guard of `detect` is on the accumulated matched
area, not on the degenerate page geometry.  When the accumulated raw area
is `≤ 0` the total coverage is `0` whatever `pageArea` is; when it is
positive and `pageArea = 0` the division by zero does occur and the result
is non-finite.  The viewport half of the claim does hold as stated: when
`viewportWidth * viewportHeight ≤ 0` no element can pass the positive
clipped-intersection test, so `calculateViewportCoverage` returns `0`
without dividing. -/
theorem claim_C1_amended (env : TPL.Env) (els : List TPL.ElementDescriptor)
    (items : List TPL.MatchedElement) :
    (TPL.detectTotalArea els ≤ 0 → TPL.totalCoveragePercent env els = some 0) ∧
      (0 < TPL.detectTotalArea els → env.pageArea = 0 →
        TPL.totalCoveragePercent env els = none) ∧
      (env.innerWidth * env.innerHeight ≤ 0 →
        TPL.calculateViewportCoverage env items = some 0) := by
  refine ⟨fun h => ?_, fun h1 h2 => ?_, fun h => ?_⟩
  · simp only [TPL.totalCoveragePercent]
    rw [if_neg (not_lt.mpr h)]
  · simp only [TPL.totalCoveragePercent]
    rw [if_pos h1, h2]
    simp [jsDiv]
  · simp only [TPL.calculateViewportCoverage]
    rw [TPL.visibleTPLArea_eq_zero h items]
    norm_num

/-- C1 (witness): the amended statement applied to concrete inputs — an
empty page, a one-element zero-page-area page, and a zero-area viewport. -/
theorem claim_C1_witness :
    TPL.totalCoveragePercent ⟨0, 0, 0, 0, 0, 0, 0, 0⟩ [] = some 0 ∧
      TPL.totalCoveragePercent ⟨0, 0, 0, 0, 0, 0, 0, 0⟩
        [⟨[], [], "tpl-card".toList, 0, 0, 10, 10⟩] = none ∧
      TPL.calculateViewportCoverage ⟨0, 0, 0, 0, 0, 0, 0, 0⟩ [] = some 0 := by
  have hg : TPL.emitClass "tpl-card".toList = true := by decide
  refine ⟨(claim_C1_amended _ _ []).1 (by norm_num [TPL.detectTotalArea]),
    (claim_C1_amended _ _ []).2.1 ?_ (by norm_num [TPL.Env.pageArea]),
    (claim_C1_amended _ [] _).2.2 (by norm_num)⟩
  simp only [TPL.detectTotalArea, hg, if_true]
  norm_num

/-- C5: when no viewport has a successful analysis,
`generateCrossViewportAnalysis` returns the explicit failure object
`{ error: "No successful viewport analyses" }`, a shape distinct from any
populated `CrossViewportAnalysis`. -/
theorem claim_C5 (viewportResults : List MV.MVResult)
    (h : MV.successfulResults viewportResults = []) :
    MV.generateCrossViewportAnalysis viewportResults =
        .failure "No successful viewport analyses" ∧
      ∀ a : MV.CrossViewportAnalysis,
        (MV.CrossRes.failure "No successful viewport analyses") ≠ .ok a := by
  constructor
  · simp [MV.generateCrossViewportAnalysis, h]
  · intro a
    simp

/-- C5 (witness): a run whose only viewport failed. -/
theorem claim_C5_witness :
    MV.generateCrossViewportAnalysis [⟨"mobile", none⟩] =
      .failure "No successful viewport analyses" :=
  (claim_C5 [⟨"mobile", none⟩] (by simp [MV.successfulResults])).1

/-- C3: with at least two successful viewports the responsive adoption
score is `max(0, 1 - V/100)` where `V` is the population variance (mean of
squared deviations from the mean) of the successful viewports' coverage
percentages; with fewer than two successful viewports it is `0`; and for
coverages `[20, 30]` it is `0.75`. -/
theorem claim_C3 (viewportResults : List MV.MVResult) :
    (2 ≤ (viewportResults.filterMap (·.analysis)).length →
      MV.calculateResponsiveScore viewportResults =
        max 0 (1 - MV.specPopulationVariance
          ((viewportResults.filterMap (·.analysis)).map (·.totalCoveragePercent)) / 100)) ∧
      ((viewportResults.filterMap (·.analysis)).length < 2 →
        MV.calculateResponsiveScore viewportResults = 0) ∧
      MV.calculateResponsiveScore
        [⟨"mobile", some ⟨20, 5, []⟩⟩, ⟨"desktop", some ⟨30, 7, []⟩⟩] = 3 / 4 := by
  refine ⟨fun h => ?_, fun h => ?_, ?_⟩
  · simp only [MV.calculateResponsiveScore]
    rw [if_neg (not_lt.mpr h)]
    rfl
  · simp only [MV.calculateResponsiveScore]
    rw [if_pos h]
  · simp only [MV.calculateResponsiveScore, List.filterMap_cons, MV.calculateVariance]
    norm_num

/-- C3 (witness): the general branches applied at concrete inputs — two
successful viewports with coverages 20 and 30, and a single successful
viewport. -/
theorem claim_C3_witness :
    MV.calculateResponsiveScore [⟨"m", some ⟨20, 5, []⟩⟩, ⟨"d", some ⟨30, 7, []⟩⟩] =
        max 0 (1 - MV.specPopulationVariance [20, 30] / 100) ∧
      MV.calculateResponsiveScore [⟨"m", some ⟨20, 5, []⟩⟩] = 0 := by
  constructor
  · have h := (claim_C3 [⟨"m", some ⟨20, 5, []⟩⟩, ⟨"d", some ⟨30, 7, []⟩⟩]).1 (by simp)
    simpa using h
  · exact (claim_C3 [⟨"m", some ⟨20, 5, []⟩⟩]).2.1 (by simp)

namespace TPL

/-- The spec's per-token qualifying predicate for C2: the token contains
the marker and does not start with any exclude string.  (The code instead
excludes by substring containment, and applies the exclusion to the whole
class string before ever splitting it.) -/
def specTokenQualifies (tok : List Char) : Bool :=
  containsSub tplNeedle tok && !(excludeNeedles.any fun nd => nd.isPrefixOf tok)

/-- The token-level characterisation of the code's actual emission
condition: some split token contains the marker, and no split token
contains any excluded substring. -/
def c2Qualifies (el : ElementDescriptor) : Prop :=
  (∃ tok ∈ splitSpace el.className, containsSub tplNeedle tok = true) ∧
    ∀ tok ∈ splitSpace el.className, ∀ nd ∈ excludeNeedles, containsSub nd tok = false

instance (el : ElementDescriptor) : Decidable (c2Qualifies el) := by
  unfold c2Qualifies
  infer_instance

lemma emitClass_eq_decide (el : ElementDescriptor) :
    emitClass el.className = decide (c2Qualifies el) := by
  by_cases h : c2Qualifies el
  · rw [(emitClass_iff el.className).mpr h]
    simp [h]
  · have hf : ¬ emitClass el.className = true := fun hc => h ((emitClass_iff el.className).mp hc)
    rw [Bool.not_eq_true] at hf
    rw [hf]
    simp [h]

end TPL

/-- C2 (counterexample): an element carrying the excluded token `tpl-btn`
together with the distinct qualifying token `tpl-card` is dropped entirely
by `detect` — the whole-string guard fails — even though `tpl-card`
contains the marker and starts with no exclude string, so the claimed
"emitted iff some token qualifies" equivalence is false. -/
theorem claim_C2_counterexample :
    TPL.specTokenQualifies "tpl-card".toList = true ∧
      "tpl-card".toList ∈ splitSpace "tpl-btn tpl-card".toList ∧
      TPL.detectElems ⟨0, 0, 0, 0, 0, 0, 0, 0⟩
        [⟨[], [], "tpl-btn tpl-card".toList, 0, 0, 10, 10⟩] = [] := by
  refine ⟨by decide, by decide, ?_⟩
  simp only [TPL.detectElems, TPL.detectGo]
  rw [if_neg (by decide)]

/-- C2 (amended): an element is emitted iff some split token contains the
marker `tpl` and no split token contains any of the four excluded
substrings (exclusion is by containment, not prefix, and any excluded
occurrence anywhere in the class string drops the whole element); the
emitted matched tokens are then exactly the split tokens containing the
marker. -/
theorem claim_C2_amended (env : TPL.Env) (els : List TPL.ElementDescriptor) :
    TPL.detectElems env els =
        TPL.mkAllFrom env 0 (els.filter fun el => decide (TPL.c2Qualifies el)) ∧
      ∀ m ∈ TPL.detectElems env els, ∃ el ∈ els, TPL.c2Qualifies el ∧
        m.classes = (splitSpace el.className).filter fun tok => containsSub TPL.tplNeedle tok := by
  constructor
  · rw [TPL.detectElems, TPL.detectGo_eq]
    congr 1
    exact List.filter_congr fun el _ => TPL.emitClass_eq_decide el
  · intro m hm
    rw [TPL.detectElems, TPL.detectGo_eq] at hm
    obtain ⟨el, helf, k, rfl⟩ := TPL.mem_mkAllFrom hm
    obtain ⟨hel, hemit⟩ := List.mem_filter.mp helf
    have hq : TPL.c2Qualifies el := (TPL.emitClass_iff el.className).mp hemit
    refine ⟨el, hel, hq, ?_⟩
    show TPL.matchedTokens el.className = _
    exact TPL.matchedTokens_of_exclFree hq.2

/-- C2 (witness): the amended characterisation applied to a one-element
page with class `tpl-card`, whose matched token list is the single marker
token. -/
theorem claim_C2_witness :
    TPL.detectElems ⟨0, 0, 0, 0, 0, 0, 0, 0⟩ [⟨[], [], "tpl-card".toList, 0, 0, 10, 10⟩] =
        TPL.mkAllFrom ⟨0, 0, 0, 0, 0, 0, 0, 0⟩ 0
          ([⟨[], [], "tpl-card".toList, 0, 0, 10, 10⟩].filter
            fun el => decide (TPL.c2Qualifies el)) ∧
      ∃ el ∈ [(⟨[], [], "tpl-card".toList, 0, 0, 10, 10⟩ : TPL.ElementDescriptor)],
        TPL.c2Qualifies el ∧
          (TPL.mkMatched ⟨0, 0, 0, 0, 0, 0, 0, 0⟩ 0
              ⟨[], [], "tpl-card".toList, 0, 0, 10, 10⟩).classes =
            (splitSpace el.className).filter fun tok => containsSub TPL.tplNeedle tok := by
  obtain ⟨h1, h2⟩ :=
    claim_C2_amended ⟨0, 0, 0, 0, 0, 0, 0, 0⟩ [⟨[], [], "tpl-card".toList, 0, 0, 10, 10⟩]
  refine ⟨h1, ?_⟩
  have hmem : TPL.mkMatched ⟨0, 0, 0, 0, 0, 0, 0, 0⟩ 0 ⟨[], [], "tpl-card".toList, 0, 0, 10, 10⟩ ∈
      TPL.detectElems ⟨0, 0, 0, 0, 0, 0, 0, 0⟩ [⟨[], [], "tpl-card".toList, 0, 0, 10, 10⟩] := by
    simp only [TPL.detectElems, TPL.detectGo]
    rw [if_pos (by decide)]
    exact List.mem_cons_self _ _
  obtain ⟨el, hel, hq, hcl⟩ := h2 _ hmem
  exact ⟨el, hel, hq, hcl⟩

/-- C7 (counterexample): for an element all of whose class tokens qualify
(class string `tpl-card`), the emitted `matchedClassTokens` equal the full
split token list — the subset is not strict. -/
theorem claim_C7_counterexample :
    (TPL.detectElems ⟨0, 0, 0, 0, 0, 0, 0, 0⟩
          [⟨[], [], "tpl-card".toList, 0, 0, 10, 10⟩]).map TPL.MatchedElement.classes =
        [splitSpace "tpl-card".toList] ∧
      ¬ ∃ tok ∈ splitSpace "tpl-card".toList, tok ∉ splitSpace "tpl-card".toList := by
  constructor
  · simp only [TPL.detectElems, TPL.detectGo]
    rw [if_pos (by decide)]
    simp only [List.map_cons, List.map_nil]
    decide
  · simp

/-- C7 (amended): every emitted `MatchedElement` has a non-empty matched
token list, each of whose members is one of the source element's split
class tokens and passes the code's inclusion/exclusion predicate; the
containment need not be strict. -/
theorem claim_C7_amended (env : TPL.Env) (els : List TPL.ElementDescriptor)
    (m : TPL.MatchedElement) (h : m ∈ TPL.detectElems env els) :
    m.classes ≠ [] ∧ ∃ el ∈ els, ∀ tok ∈ m.classes,
      tok ∈ splitSpace el.className ∧ TPL.tokenQualifies tok = true := by
  rw [TPL.detectElems, TPL.detectGo_eq] at h
  obtain ⟨el, helf, k, rfl⟩ := TPL.mem_mkAllFrom h
  obtain ⟨hel, hemit⟩ := List.mem_filter.mp helf
  constructor
  · show TPL.matchedTokens el.className ≠ []
    have h2 := (Bool.and_eq_true _ _).mp hemit
    have := h2.2
    rw [Bool.not_eq_true', List.isEmpty_eq_false] at this
    exact this
  · exact ⟨el, hel, fun tok htok => TPL.matchedTokens_spec el.className htok⟩

/-- C7 (witness): the amended invariant at a concrete emitted element. -/
theorem claim_C7_witness :
    (TPL.mkMatched ⟨0, 0, 0, 0, 0, 0, 0, 0⟩ 0 ⟨[], [], "tpl-card".toList, 0, 0, 10, 10⟩).classes
        ≠ [] ∧
      ∃ el ∈ [(⟨[], [], "tpl-card".toList, 0, 0, 10, 10⟩ : TPL.ElementDescriptor)],
        ∀ tok ∈ (TPL.mkMatched ⟨0, 0, 0, 0, 0, 0, 0, 0⟩ 0
            ⟨[], [], "tpl-card".toList, 0, 0, 10, 10⟩).classes,
          tok ∈ splitSpace el.className ∧ TPL.tokenQualifies tok = true := by
  have hmem : TPL.mkMatched ⟨0, 0, 0, 0, 0, 0, 0, 0⟩ 0 ⟨[], [], "tpl-card".toList, 0, 0, 10, 10⟩ ∈
      TPL.detectElems ⟨0, 0, 0, 0, 0, 0, 0, 0⟩ [⟨[], [], "tpl-card".toList, 0, 0, 10, 10⟩] := by
    simp only [TPL.detectElems, TPL.detectGo]
    rw [if_pos (by decide)]
    exact List.mem_cons_self _ _
  exact claim_C7_amended ⟨0, 0, 0, 0, 0, 0, 0, 0⟩ _ _ hmem

/-- C10: the matcher never filters on geometry or visibility.  Any listed
element whose class string passes the (purely string-based) emission test
is emitted: with zero width or height its stored area is `0` and
`isVisible` is `false`; lying entirely outside the viewport its
`inViewport` is `false`; it is still counted in `elementCount` (which
equals the number of class-qualified elements, independent of geometry)
and contributes one occurrence to each of its matched tokens' per-token
counts. -/
theorem claim_C10 (env : TPL.Env) (els : List TPL.ElementDescriptor)
    (el : TPL.ElementDescriptor) (h1 : el ∈ els) (h2 : TPL.emitClass el.className = true) :
    (∃ k, TPL.mkMatched env k el ∈ TPL.detectElems env els ∧
        (TPL.mkMatched env k el).area = round (el.rectWidth * el.rectHeight) ∧
        ((el.rectWidth = 0 ∨ el.rectHeight = 0) →
          (TPL.mkMatched env k el).area = 0 ∧ (TPL.mkMatched env k el).isVisible = false) ∧
        ((el.rectBottom ≤ 0 ∨ env.innerHeight ≤ el.rectTop ∨ el.rectRight ≤ 0 ∨
            env.innerWidth ≤ el.rectLeft) → (TPL.mkMatched env k el).inViewport = false)) ∧
      (TPL.detectElems env els).length =
        (els.filter fun e => TPL.emitClass e.className).length ∧
      ∀ t ∈ TPL.matchedTokens el.className,
        1 ≤ TPL.tokenCount (TPL.detectElems env els) t := by
  have helf : el ∈ els.filter fun e => TPL.emitClass e.className :=
    List.mem_filter.mpr ⟨h1, h2⟩
  obtain ⟨k, hk⟩ := TPL.mkAllFrom_mem helf 0
  rw [TPL.detectElems, TPL.detectGo_eq]
  refine ⟨⟨k, hk, rfl, ?_, ?_⟩, TPL.length_mkAllFrom env 0 _, ?_⟩
  · intro hwh
    simp only [TPL.mkMatched]
    constructor
    · rcases hwh with hw | hh
      · rw [hw, zero_mul, round_zero]
      · rw [hh, mul_zero, round_zero]
    · rcases hwh with hw | hh
      · rw [decide_eq_false (by rw [hw]; exact lt_irrefl 0)]
        simp
      · rw [decide_eq_false (show ¬el.rectHeight > 0 by rw [hh]; exact lt_irrefl 0)]
        simp
  · intro hout
    simp only [TPL.mkMatched]
    rcases hout with hb | ht | hr | hl
    · rw [decide_eq_false (not_lt.mpr hb)]
      simp
    · rw [decide_eq_false (not_lt.mpr ht)]
      simp
    · rw [decide_eq_false (not_lt.mpr hr)]
      simp
    · rw [decide_eq_false (not_lt.mpr hl)]
      simp
  · intro t ht
    have hocc : (t, (TPL.mkMatched env k el).area) ∈
        TPL.occList (TPL.mkAllFrom env 0 (els.filter fun e => TPL.emitClass e.className)) := by
      refine List.mem_flatMap.mpr ⟨TPL.mkMatched env k el, hk, ?_⟩
      exact List.mem_map.mpr ⟨t, ht, rfl⟩
    have hfil : (t, (TPL.mkMatched env k el).area) ∈
        (TPL.occList (TPL.mkAllFrom env 0
          (els.filter fun e => TPL.emitClass e.className))).filter fun p => p.1 = t :=
      List.mem_filter.mpr ⟨hocc, by simp⟩
    exact List.length_pos.mpr (List.ne_nil_of_mem hfil)

/-- C10 (witness): a zero-sized, off-screen `tpl-card` element is still
emitted, with area 0, `isVisible = false` and `inViewport = false`, and is
counted. -/
theorem claim_C10_witness :
    (∃ k, TPL.mkMatched ⟨0, 0, 0, 0, 0, 0, 0, 0⟩ k
          ⟨[], [], "tpl-card".toList, -100, -100, 0, 0⟩ ∈
        TPL.detectElems ⟨0, 0, 0, 0, 0, 0, 0, 0⟩
          [⟨[], [], "tpl-card".toList, -100, -100, 0, 0⟩] ∧
        (TPL.mkMatched ⟨0, 0, 0, 0, 0, 0, 0, 0⟩ k
          ⟨[], [], "tpl-card".toList, -100, -100, 0, 0⟩).area = 0 ∧
        (TPL.mkMatched ⟨0, 0, 0, 0, 0, 0, 0, 0⟩ k
          ⟨[], [], "tpl-card".toList, -100, -100, 0, 0⟩).isVisible = false ∧
        (TPL.mkMatched ⟨0, 0, 0, 0, 0, 0, 0, 0⟩ k
          ⟨[], [], "tpl-card".toList, -100, -100, 0, 0⟩).inViewport = false) ∧
      (TPL.detectElems ⟨0, 0, 0, 0, 0, 0, 0, 0⟩
        [⟨[], [], "tpl-card".toList, -100, -100, 0, 0⟩]).length = 1 := by
  obtain ⟨⟨k, hk, _, hzero, hout⟩, hlen, _⟩ :=
    claim_C10 ⟨0, 0, 0, 0, 0, 0, 0, 0⟩ [⟨[], [], "tpl-card".toList, -100, -100, 0, 0⟩]
      ⟨[], [], "tpl-card".toList, -100, -100, 0, 0⟩ (List.mem_cons_self _ _) (by decide)
  obtain ⟨ha, hv⟩ := hzero (Or.inl rfl)
  refine ⟨⟨k, hk, ha, hv, hout (Or.inl (by norm_num [TPL.ElementDescriptor.rectBottom]))⟩, ?_⟩
  rw [hlen]
  decide

/-- C4: with each matched element's token set duplicate-free (the data
model's `matchedClassTokens` is a set), every reported `ComponentStat` is
keyed by some carried token `t`, its `count` is the number of matched
elements carrying `t`, its `totalArea` is the exact (unrounded) sum of
those elements' stored areas — an element matched to several tokens
contributing its full area to each — and its `averageArea` is
`totalArea / count` rounded to the nearest integer; conversely every
carried token has a `ComponentStat`. -/
theorem claim_C4 (env : TPL.Env) (items : List TPL.MatchedElement)
    (hnd : ∀ m ∈ items, m.classes.Nodup) :
    (∀ s ∈ TPL.getComponentSummary env items, ∃ t,
        (∃ m ∈ items, t ∈ m.classes) ∧
          s.selector = '.' :: t ∧
          s.count = (items.filter fun m => t ∈ m.classes).length ∧
          s.totalArea = ((items.filter fun m => t ∈ m.classes).map fun m => (m.area : ℚ)).sum ∧
          s.averageArea = round (s.totalArea / (s.count : ℚ))) ∧
      ∀ t, (∃ m ∈ items, t ∈ m.classes) →
        ∃ s ∈ TPL.getComponentSummary env items, s.selector = '.' :: t := by
  constructor
  · intro s hs
    obtain ⟨t, hex, rfl⟩ := TPL.mem_getComponentSummary.mp hs
    refine ⟨t, hex, rfl, ?_, ?_, rfl⟩
    · exact TPL.tokenCount_eq hnd t
    · exact TPL.tokenArea_eq hnd t
  · rintro t ⟨m, hm, ht⟩
    exact ⟨TPL.componentStatFor env items t,
      TPL.mem_getComponentSummary.mpr ⟨t, ⟨m, hm, ht⟩, rfl⟩, rfl⟩

/-- C4 (witness): two elements sharing the token `tpl-card` (one of them
also carrying `tpl-x`) produce a `tpl-card` stat with count 2, exact total
area 15 and average `round(15/2)`. -/
theorem claim_C4_witness :
    ∃ s ∈ TPL.getComponentSummary ⟨0, 0, 0, 0, 0, 0, 0, 0⟩
        [⟨[], [], ["tpl-card".toList, "tpl-x".toList], ⟨0, 0, 0, 0⟩, 10, false, false⟩,
          ⟨[], [], ["tpl-card".toList], ⟨0, 0, 0, 0⟩, 5, false, false⟩],
      s.selector = '.' :: "tpl-card".toList ∧ s.count = 2 ∧ s.totalArea = 15 ∧
        s.averageArea = round ((15 : ℚ) / 2) := by
  obtain ⟨hall, hex⟩ := claim_C4 ⟨0, 0, 0, 0, 0, 0, 0, 0⟩
    [⟨[], [], ["tpl-card".toList, "tpl-x".toList], ⟨0, 0, 0, 0⟩, 10, false, false⟩,
      ⟨[], [], ["tpl-card".toList], ⟨0, 0, 0, 0⟩, 5, false, false⟩] (by decide)
  obtain ⟨s, hs, hsel⟩ := hex "tpl-card".toList ⟨_, List.mem_cons_self _ _, by decide⟩
  obtain ⟨t', _, hsel', hcount, harea, havg⟩ := hall s hs
  have ht' : t' = "tpl-card".toList := by
    have h := hsel'.symm.trans hsel
    injection h
  subst ht'
  have hc2 : s.count = 2 := by
    rw [hcount]
    decide
  have ha15 : s.totalArea = 15 := by
    rw [harea]
    rw [show ([⟨[], [], ["tpl-card".toList, "tpl-x".toList], ⟨0, 0, 0, 0⟩, 10, false, false⟩,
          ⟨[], [], ["tpl-card".toList], ⟨0, 0, 0, 0⟩, 5, false, false⟩] :
            List TPL.MatchedElement).filter
          (fun m => "tpl-card".toList ∈ m.classes) =
        [⟨[], [], ["tpl-card".toList, "tpl-x".toList], ⟨0, 0, 0, 0⟩, 10, false, false⟩,
          ⟨[], [], ["tpl-card".toList], ⟨0, 0, 0, 0⟩, 5, false, false⟩] from by decide]
    norm_num
  refine ⟨s, hs, hsel, hc2, ha15, ?_⟩
  rw [havg, hc2, ha15]
  norm_num

/-- Rounding to one decimal place is idempotent. -/
lemma roundTo1_idem (w : ℚ) : TPL.roundTo1 (TPL.roundTo1 w) = TPL.roundTo1 w := by
  unfold TPL.roundTo1
  rw [div_mul_cancel₀ _ (by norm_num : (10 : ℚ) ≠ 0), round_intCast]

/-- C6 (counterexample): the reported per-component `coveragePercent` is
not rounded.  A 1-by-1 `tpl-card` element on a page of area 3 is reported
with component coverage `100/3`, which is not equal to its one-decimal
rounding. -/
theorem claim_C6_counterexample :
    ∃ s ∈ (TPL.analyzePage ⟨0, 0, 0, 0, 1, 3, 0, 0⟩
        [⟨[], [], "tpl-card".toList, 0, 0, 1, 1⟩]).components,
      ∃ v, s.coveragePercent = some v ∧ v ≠ TPL.roundTo1 v := by
  have hdet : TPL.detectElems ⟨0, 0, 0, 0, 1, 3, 0, 0⟩ [⟨[], [], "tpl-card".toList, 0, 0, 1, 1⟩] =
      [TPL.mkMatched ⟨0, 0, 0, 0, 1, 3, 0, 0⟩ 0 ⟨[], [], "tpl-card".toList, 0, 0, 1, 1⟩] := by
    simp only [TPL.detectElems, TPL.detectGo]
    rw [if_pos (by decide)]
  have hcl : (TPL.mkMatched ⟨0, 0, 0, 0, 1, 3, 0, 0⟩ 0
      ⟨[], [], "tpl-card".toList, 0, 0, 1, 1⟩).classes = ["tpl-card".toList] := by decide
  have harea : (TPL.mkMatched ⟨0, 0, 0, 0, 1, 3, 0, 0⟩ 0
      ⟨[], [], "tpl-card".toList, 0, 0, 1, 1⟩).area = 1 := by
    simp only [TPL.mkMatched]
    norm_num
  have htok : TPL.tokenArea
      [TPL.mkMatched ⟨0, 0, 0, 0, 1, 3, 0, 0⟩ 0 ⟨[], [], "tpl-card".toList, 0, 0, 1, 1⟩]
      "tpl-card".toList = 1 := by
    rw [TPL.tokenArea, TPL.occList]
    simp only [List.flatMap_cons, List.flatMap_nil, List.append_nil, hcl]
    rw [List.map_cons, List.map_nil, List.filter_cons, if_pos (by decide), List.filter_nil]
    rw [List.map_cons, List.map_nil, List.sum_cons, List.sum_nil]
    rw [harea]
    norm_num
  rw [show (TPL.analyzePage ⟨0, 0, 0, 0, 1, 3, 0, 0⟩
        [⟨[], [], "tpl-card".toList, 0, 0, 1, 1⟩]).components =
      TPL.getComponentSummary ⟨0, 0, 0, 0, 1, 3, 0, 0⟩
        (TPL.detectElems ⟨0, 0, 0, 0, 1, 3, 0, 0⟩ [⟨[], [], "tpl-card".toList, 0, 0, 1, 1⟩])
      from rfl]
  refine ⟨TPL.componentStatFor ⟨0, 0, 0, 0, 1, 3, 0, 0⟩
      (TPL.detectElems ⟨0, 0, 0, 0, 1, 3, 0, 0⟩ [⟨[], [], "tpl-card".toList, 0, 0, 1, 1⟩])
      "tpl-card".toList,
    TPL.mem_getComponentSummary.mpr ⟨"tpl-card".toList,
      ⟨TPL.mkMatched ⟨0, 0, 0, 0, 1, 3, 0, 0⟩ 0 ⟨[], [], "tpl-card".toList, 0, 0, 1, 1⟩,
        ?_, ?_⟩, rfl⟩, 100 / 3, ?_, ?_⟩
  · rw [hdet]
    exact List.mem_cons_self _ _
  · rw [hcl]
    exact List.mem_cons_self _ _
  · show ((jsDiv (TPL.tokenArea _ _) _).map (· * 100)) = some (100 / 3)
    rw [hdet, htok]
    norm_num [jsDiv, TPL.Env.pageArea]
  · rw [TPL.roundTo1]
    rw [show round ((100 : ℚ) / 3 * 10) = 333 from by rw [round_eq]; norm_num]
    norm_num

/-- C6 (amended): the two page-level percentages reported by `analyzePage`
(`totalCoveragePercent` and `viewportCoveragePercent`) are rounded to one
decimal place via `round(value * 10) / 10` at the point of reporting, and
any finite reported value is a fixed point of that rounding; the
per-component `coveragePercent` values in the reported `components`
sequence are, however, reported unrounded. -/
theorem claim_C6_amended (env : TPL.Env) (els : List TPL.ElementDescriptor) :
    ((TPL.analyzePage env els).totalCoveragePercent =
        (TPL.totalCoveragePercent env els).map TPL.roundTo1 ∧
      (TPL.analyzePage env els).viewportCoveragePercent =
        (TPL.calculateViewportCoverage env (TPL.detectElems env els)).map TPL.roundTo1) ∧
      (∀ v, (TPL.analyzePage env els).totalCoveragePercent = some v → v = TPL.roundTo1 v) ∧
      ∀ v, (TPL.analyzePage env els).viewportCoveragePercent = some v → v = TPL.roundTo1 v := by
  refine ⟨⟨rfl, rfl⟩, fun v hv => ?_, fun v hv => ?_⟩
  · simp only [TPL.analyzePage] at hv
    rw [Option.map_eq_some'] at hv
    obtain ⟨w, _, rfl⟩ := hv
    exact (roundTo1_idem w).symm
  · simp only [TPL.analyzePage] at hv
    rw [Option.map_eq_some'] at hv
    obtain ⟨w, _, rfl⟩ := hv
    exact (roundTo1_idem w).symm

/-- C6 (witness): the amended statement at a concrete empty page, whose
reported total coverage `0` is its own one-decimal rounding. -/
theorem claim_C6_witness :
    (TPL.analyzePage ⟨0, 0, 0, 0, 0, 0, 0, 0⟩ []).totalCoveragePercent = some 0 ∧
      (0 : ℚ) = TPL.roundTo1 0 := by
  have h0 : (TPL.analyzePage ⟨0, 0, 0, 0, 0, 0, 0, 0⟩ []).totalCoveragePercent = some 0 := by
    show (TPL.totalCoveragePercent ⟨0, 0, 0, 0, 0, 0, 0, 0⟩ []).map TPL.roundTo1 = some 0
    rw [show TPL.totalCoveragePercent ⟨0, 0, 0, 0, 0, 0, 0, 0⟩ [] = some 0 from by
      simp [TPL.totalCoveragePercent, TPL.detectTotalArea]]
    simp [TPL.roundTo1]
  exact ⟨h0, (claim_C6_amended ⟨0, 0, 0, 0, 0, 0, 0, 0⟩ []).2.1 0 h0⟩

lemma length_filter_map_eq {β γ : Type*} (g : β → γ) (q : γ → Bool) (l : List β) :
    ((l.map g).filter q).length = (l.filter fun a => q (g a)).length := by
  induction l with
  | nil => rfl
  | cons b t ih => by_cases h : q (g b) <;> simp [List.filter_cons, h, ih]

/-- C8: with at least one successful viewport,
`generateCrossViewportAnalysis` succeeds, the keys of
`componentConsistency` are exactly the tokens appearing in some successful
viewport's `topComponents`, each key maps to the number of successful
viewports whose `topComponents` include it divided by the number of
successful viewports, and every such value lies in `[0, 1]`. -/
theorem claim_C8 (viewportResults : List MV.MVResult)
    (h : MV.successfulResults viewportResults ≠ []) :
    ∃ r, MV.generateCrossViewportAnalysis viewportResults = .ok r ∧
      (∀ t, (∃ v, (t, v) ∈ r.componentConsistency) ↔
        ∃ p ∈ MV.successfulResults viewportResults, t ∈ p.2.topComponents) ∧
      ∀ t v, (t, v) ∈ r.componentConsistency →
        v = (((MV.successfulResults viewportResults).filter
              fun p => t ∈ p.2.topComponents).length : ℚ) /
            ((MV.successfulResults viewportResults).length : ℚ) ∧
          0 ≤ v ∧ v ≤ 1 := by
  have hne : (MV.successfulResults viewportResults).isEmpty = false :=
    List.isEmpty_eq_false.mpr h
  simp only [MV.generateCrossViewportAnalysis]
  rw [if_neg (by rw [hne]; exact Bool.false_ne_true)]
  refine ⟨_, rfl, ?_, ?_⟩
  · intro t
    constructor
    · rintro ⟨v, hv⟩
      obtain ⟨c, hc, heq⟩ := List.mem_map.mp hv
      have hct : c = t := congrArg Prod.fst heq
      subst hct
      rw [mem_insOrderDedup] at hc
      exact List.mem_flatMap.mp hc
    · rintro ⟨p, hp, ht⟩
      refine ⟨_, List.mem_map.mpr ⟨t, ?_, rfl⟩⟩
      rw [mem_insOrderDedup]
      exact List.mem_flatMap.mpr ⟨p, hp, ht⟩
  · intro t v hv
    obtain ⟨c, hc, heq⟩ := List.mem_map.mp hv
    have hct : c = t := congrArg Prod.fst heq
    subst hct
    have hfv := congrArg Prod.snd heq
    simp only at hfv
    have hlen :
        ((((MV.successfulResults viewportResults).map
              fun p => (p.1, p.2.topComponents)).map Prod.snd).filter
            fun components => components.contains c).length =
          ((MV.successfulResults viewportResults).filter
            fun p => c ∈ p.2.topComponents).length := by
      rw [List.map_map]
      rw [show (Prod.snd ∘ fun p : String × MV.MVAnalysis => (p.1, p.2.topComponents)) =
          fun p : String × MV.MVAnalysis => p.2.topComponents from rfl]
      rw [length_filter_map_eq]
      congr 1
      exact List.filter_congr fun p _ => List.elem_eq_mem c p.2.topComponents
    rw [← hfv, hlen]
    have hnpos : 0 < (MV.successfulResults viewportResults).length :=
      List.length_pos.mpr h
    have hqpos : (0 : ℚ) < ((MV.successfulResults viewportResults).length : ℚ) := by
      exact_mod_cast hnpos
    refine ⟨rfl, div_nonneg (by positivity) (le_of_lt hqpos), ?_⟩
    rw [div_le_one hqpos]
    exact_mod_cast List.length_filter_le _ _

/-- C8 (witness): two successful viewports sharing `tpl-a` give it a
consistency value inside `[0, 1]`. -/
theorem claim_C8_witness :
    ∃ r, MV.generateCrossViewportAnalysis
        [⟨"m", some ⟨20, 5, ["tpl-a"]⟩⟩, ⟨"d", some ⟨30, 7, ["tpl-a", "tpl-b"]⟩⟩] = .ok r ∧
      ∃ v, ("tpl-a", v) ∈ r.componentConsistency ∧ 0 ≤ v ∧ v ≤ 1 := by
  obtain ⟨r, hok, hkeys, hval⟩ := claim_C8
    [⟨"m", some ⟨20, 5, ["tpl-a"]⟩⟩, ⟨"d", some ⟨30, 7, ["tpl-a", "tpl-b"]⟩⟩]
    (by simp [MV.successfulResults])
  obtain ⟨v, hv⟩ := (hkeys "tpl-a").mpr
    ⟨("m", ⟨20, 5, ["tpl-a"]⟩), by simp [MV.successfulResults], by simp⟩
  exact ⟨r, hok, v, hv, (hval _ _ hv).2⟩
